import Mathlib

/-
Verification development for the evolution simulator (`evolve.py`).

The program is embedded shallowly:
* Python floats become exact rationals (`ℚ`).
* The global random generator `R` becomes an explicit stream `rand : ℕ → ℚ`
  of uniform-[0,1) draws, threaded by an index `ix`; `R.triangular(0, 5)`
  draws used by `initialize` become a separate stream `tri : ℕ → ℚ`.
* The record `{'s': .., 'l': .., 'id': .., 'a': ..}` becomes the structure
  `Individual`; the string status tags become the inductive `Status`.
* `kill` has no `return` on the `f <= 0` path (Python yields `None`),
  so it returns `Option Bool`: `none` models `None`, which is falsy.
* The loop in `simulate` becomes the step function `genStep` iterated by
  `runGens`; `GenState` carries the loop variables (`p`, `n`, the
  historical-extreme trackers) plus the random index and, as an
  observation of the birth events, the list `created` of every id ever
  assigned (ids of the initial population followed by each child's id).
-/

namespace Evolve

inductive Status
  | Alive
  | Dead
deriving DecidableEq, Repr, Inhabited

structure Individual where
  s : ℚ
  l : Status
  id : ℕ
  a : ℕ
deriving DecidableEq, Repr, Inhabited

/-- `initialize(pop)`: `pop` individuals, power `tri i` (the i-th
triangular(0,5) draw), status Alive, age 0, ids 0..pop-1; returns the
list and the next id `n = pop`. -/
def initPop (pop : ℕ) (tri : ℕ → ℚ) : List Individual × ℕ :=
  ((List.range pop).map (fun i => ⟨tri i, Status.Alive, i, 0⟩), pop)

/-- The loop of `parent_power`: sum of the powers of the Alive
individuals together with their number. -/
def livingSum : List Individual → ℚ × ℕ
  | [] => (0, 0)
  | v :: rest =>
      let r := livingSum rest
      if v.l = Status.Alive then (r.1 + v.s, r.2 + 1) else r

/-- `parent_power(p, pop)`: average power of Alive individuals and their
count; `(0, 0)` when none are alive. -/
def parent_power (p : List Individual) : ℚ × ℕ :=
  let r := livingSum p
  if r.2 = 0 then (0, 0) else (r.1 / (r.2 : ℚ), r.2)

/-- Python `int()` truncation toward zero on a rational. -/
def pyInt (f : ℚ) : ℤ :=
  if 0 ≤ f then ⌊f⌋ else ⌈f⌉

/-- The trial loop of `kill`: starting at stream position `ix`, run `k`
trials; a draw exceeding 0.6 returns `true` at once (consuming the draws
up to it), otherwise all `k` draws are consumed and the result is
`false`.  Returns the result and the next stream position. -/
def killLoop (rand : ℕ → ℚ) : ℕ → ℕ → Bool × ℕ
  | ix, 0 => (false, ix)
  | ix, k + 1 =>
      if rand ix > 0.6 then (true, ix + 1) else killLoop rand (ix + 1) k

/-- `kill(f)`: when `f > 0`, run `int(f) ** 2` trials; otherwise fall off
the function body — Python returns `None`, modelled as `none`. -/
def kill (f : ℚ) (rand : ℕ → ℚ) (ix : ℕ) : Option Bool × ℕ :=
  if f > 0 then
    let r := killLoop rand ix ((pyInt f).toNat ^ 2)
    (some r.1, r.2)
  else (none, ix)

/-- The loop of `pressure`: apply the death test to every slot (dead
slots included), marking a slot Dead when the test returns `True`. -/
def pressureGo (env : ℚ) (rand : ℕ → ℚ) : List Individual → ℕ → List Individual × ℕ
  | [], ix => ([], ix)
  | v :: rest, ix =>
      let k := kill (env - v.s) rand ix
      let v' := if k.1 = some true then { v with l := Status.Dead } else v
      let r := pressureGo env rand rest k.2
      (v' :: r.1, r.2)

/-- `pressure(p, gen, pop)`: environmental pressure
`(gen + 5) * (0.8 + gen/200)` applied to every slot; returns the mutated
population, the pressure value and the next stream position. -/
def pressure (p : List Individual) (gen : ℕ) (rand : ℕ → ℚ) (ix : ℕ) :
    List Individual × ℚ × ℕ :=
  let env : ℚ := ((gen : ℚ) + 5) * (0.8 + (gen : ℚ) / 200)
  let r := pressureGo env rand p ix
  (r.1, env, r.2)

/-- The six loop variables of `print_living`. -/
structure Extremes where
  weak : ℚ
  wid : ℕ
  strong : ℚ
  sid : ℕ
  old : ℕ
  oid : ℕ
deriving DecidableEq, Repr

/-- The loop of `print_living`: for each Alive individual, update the
weakest/strongest/oldest trackers exactly as the three `if` statements
of the source do. -/
def printLivingLoop : List Individual → Extremes → Extremes
  | [], e => e
  | v :: rest, e =>
      if v.l = Status.Alive then
        let e1 := if e.weak > v.s ∨ e.weak = 0 then { e with weak := v.s, wid := v.id } else e
        let e2 := if e1.strong < v.s then { e1 with strong := v.s, sid := v.id } else e1
        let e3 := if e2.old < v.a then { e2 with old := v.a, oid := v.id } else e2
        printLivingLoop rest e3
      else printLivingLoop rest e

/-- `print_living(p, pop)` (the printing is I/O and omitted): trackers
start at `weak=0, wid=0, strong=0, sid=0, old=1, oid=0`; the function
returns `strong, sid, old, oid`. -/
def print_living (p : List Individual) : ℚ × ℕ × ℕ × ℕ :=
  let e := printLivingLoop p ⟨0, 0, 0, 0, 1, 0⟩
  (e.strong, e.sid, e.old, e.oid)

/-- `R.uniform(a, b)` applied to a uniform-[0,1) draw `u`. -/
def uniform (a b u : ℚ) : ℚ := a + (b - a) * u

/-- Result of the respawn loop of `simulate`: the population, the next
id `n`, the remaining quota `new`, the next stream position, and the
list of ids assigned to the children born in the pass. -/
structure RepResult where
  p : List Individual
  n : ℕ
  quota : ℕ
  ix : ℕ
  born : List ℕ
deriving DecidableEq, Repr

/-- The respawn loop of `simulate` (lines 133-145): walk the slots in
order; stop as soon as the quota `new` is 0 (remaining slots are left
untouched); overwrite each Dead slot with a child of power
`avg + uniform(-1*mut, mut)`, id `n`, age 0, decrementing the quota;
increment the age of each Alive slot visited. -/
def reproduce (avg mu : ℚ) (rand : ℕ → ℚ) :
    List Individual → ℕ → ℕ → ℕ → RepResult
  | [], n, new, ix => ⟨[], n, new, ix, []⟩
  | v :: rest, n, new, ix =>
      if new = 0 then ⟨v :: rest, n, new, ix, []⟩
      else if v.l = Status.Dead then
        let child : Individual := ⟨avg + uniform (-1 * mu) mu (rand ix), Status.Alive, n, 0⟩
        let r := reproduce avg mu rand rest (n + 1) (new - 1) (ix + 1)
        ⟨child :: r.p, r.n, r.quota, r.ix, n :: r.born⟩
      else
        let r := reproduce avg mu rand rest n new ix
        ⟨{ v with a := v.a + 1 } :: r.p, r.n, r.quota, r.ix, r.born⟩

/-- The loop state of `simulate`: population, next id, the historical
extremes (`fittest`, `fitid`, `old_env`, `oldest`, `oldid`, `oldgen`),
the random-stream position, and the log of every id ever assigned. -/
structure GenState where
  p : List Individual
  n : ℕ
  fittest : ℚ
  fitid : ℕ
  old_env : ℚ
  oldest : ℕ
  oldid : ℕ
  oldgen : ℕ
  ix : ℕ
  created : List ℕ
deriving DecidableEq, Repr

/-- One iteration of the `for gen in range(0, generations)` loop of
`simulate`: `none` models the extinction early `return`; otherwise the
survivors are analysed, the dead slots respawned, the pressure applied
and the historical extremes updated. -/
def genStep (gen : ℕ) (rand : ℕ → ℚ) (st : GenState) : Option GenState :=
  let ac := parent_power st.p
  if ac.1 = 0 ∨ ac.2 = 1 then none
  else
    let ex := print_living st.p
    let mu := (gen : ℚ) / 100 + 3 + (6 / (ac.2 : ℚ)) ^ 2
    let r := reproduce ac.1 mu rand st.p st.n (ac.2 * 2) st.ix
    let pr := pressure r.p gen rand r.ix
    let env := pr.2.1
    some
      { p := pr.1
        n := r.n
        fittest := if ex.1 - env > st.fittest then ex.1 - env else st.fittest
        fitid := if ex.1 - env > st.fittest then ex.2.1 else st.fitid
        old_env := if ex.1 - env > st.fittest then env else st.old_env
        oldest := if ex.2.2.1 > st.oldest then ex.2.2.1 else st.oldest
        oldid := if ex.2.2.1 > st.oldest then ex.2.2.2 else st.oldid
        oldgen := if ex.2.2.1 > st.oldest then gen else st.oldgen
        ix := pr.2.2
        created := st.created ++ r.born }

/-- Iterate `genStep` for the remaining generations; the boolean records
whether the run ended by extinction (`true`) or by exhausting the
generation budget (`false`). -/
def runGens (rand : ℕ → ℚ) : ℕ → ℕ → GenState → GenState × Bool
  | 0, _, st => (st, false)
  | g + 1, gen, st =>
      match genStep gen rand st with
      | none => (st, true)
      | some st' => runGens rand g (gen + 1) st'

/-- The state of `simulate` just after `initialize` and the stat
initialisations: ids 0..pop-1 have been created. -/
def initState (pop : ℕ) (tri : ℕ → ℚ) : GenState :=
  let ini := initPop pop tri
  ⟨ini.1, ini.2, 0, 0, 0, 0, 0, 0, 0, ini.1.map (fun v => v.id)⟩

/-- `simulate(pop, generations)` as a whole run. -/
def simulate (pop generations : ℕ) (tri rand : ℕ → ℚ) : GenState × Bool :=
  runGens rand generations 0 (initState pop tri)

/-- Outcome of the script-main input validation. -/
inductive InputResult
  | rejected
  | accepted (maxpop maxgen : ℤ)
deriving DecidableEq, Repr

/-- The script main's validation: `none` models a parse failure
(`ValueError`, rejected with exit 1); parsed integers are rejected when
`maxpop < 10` or `maxgen < 51`; otherwise `simulate` is invoked with
them. -/
def mainCheck (parsed : Option (ℤ × ℤ)) : InputResult :=
  match parsed with
  | none => .rejected
  | some (maxpop, maxgen) =>
      if maxpop < 10 then .rejected
      else if maxgen < 51 then .rejected
      else .accepted maxpop maxgen

/-- Number of Dead slots in a list (used to state the reproduction
claims). -/
def deadCount : List Individual → ℕ
  | [] => 0
  | v :: rest => (if v.l = Status.Dead then 1 else 0) + deadCount rest

/-! ### Helper lemmas -/

/-- The trial loop returns `true` exactly when one of the `k` draws
starting at `ix` exceeds 0.6. -/
theorem killLoop_true_iff (rand : ℕ → ℚ) :
    ∀ (k ix : ℕ), (killLoop rand ix k).1 = true ↔ ∃ i, i < k ∧ rand (ix + i) > 0.6 := by
  intro k
  induction k with
  | zero => intro ix; simp [killLoop]
  | succ k ih =>
      intro ix
      by_cases h : rand ix > 0.6
      · simp only [killLoop, if_pos h]
        exact iff_of_true trivial ⟨0, Nat.succ_pos _, by simpa using h⟩
      · simp only [killLoop, if_neg h]
        rw [ih (ix + 1)]
        constructor
        · rintro ⟨i, hik, hi⟩
          exact ⟨i + 1, Nat.succ_lt_succ hik,
            by rwa [← Nat.add_assoc, Nat.add_right_comm ix i 1]⟩
        · rintro ⟨i, hik, hi⟩
          match i with
          | 0 => exact absurd (by simpa using hi) h
          | j + 1 =>
              refine ⟨j, Nat.lt_of_succ_lt_succ hik, ?_⟩
              rwa [← Nat.add_assoc, Nat.add_right_comm ix j 1] at hi

/-- Python truncation agrees with the floor on nonnegative inputs. -/
theorem pyInt_of_nonneg {f : ℚ} (h : 0 ≤ f) : pyInt f = ⌊f⌋ := by
  simp [pyInt, h]

/-- Master description of the respawn loop: it keeps the list length,
consumes `min q (deadCount l)` of the quota, advances the id counter by
the same amount, and the children receive precisely the consecutive ids
`n, n+1, ...`. -/
theorem reproduce_spec (avg mu : ℚ) (rand : ℕ → ℚ) :
    ∀ (l : List Individual) (n q ix : ℕ),
      (reproduce avg mu rand l n q ix).p.length = l.length ∧
      (reproduce avg mu rand l n q ix).quota = q - min q (deadCount l) ∧
      (reproduce avg mu rand l n q ix).n = n + min q (deadCount l) ∧
      (reproduce avg mu rand l n q ix).born = List.range' n (min q (deadCount l)) := by
  intro l
  induction l with
  | nil => intro n q ix; simp [reproduce, deadCount]
  | cons v rest ih =>
      intro n q ix
      match q with
      | 0 => simp [reproduce, deadCount]
      | q' + 1 =>
          by_cases hd : v.l = Status.Dead
          · have hmin : min (q' + 1) (deadCount (v :: rest)) = min q' (deadCount rest) + 1 := by
              simp [deadCount, hd, Nat.add_comm 1 (deadCount rest), Nat.succ_min_succ]
            obtain ⟨ih1, ih2, ih3, ih4⟩ := ih (n + 1) q' (ix + 1)
            refine ⟨?_, ?_, ?_, ?_⟩ <;>
              simp only [reproduce, if_neg (Nat.succ_ne_zero q'), if_pos hd, hmin]
            · simpa using ih1
            · simpa [Nat.succ_sub_succ] using ih2
            · simp [ih3]; omega
            · have hq1 : q' + 1 - 1 = q' := rfl
              rw [hq1, ih4, Nat.add_comm (q' ⊓ deadCount rest) 1, Nat.add_comm 1 (q' ⊓ deadCount rest)]
              exact (List.range'_succ n (q' ⊓ deadCount rest) 1).symm
          · have hmin : min (q' + 1) (deadCount (v :: rest)) = min (q' + 1) (deadCount rest) := by
              simp [deadCount, hd]
            obtain ⟨ih1, ih2, ih3, ih4⟩ := ih n (q' + 1) ix
            refine ⟨?_, ?_, ?_, ?_⟩ <;>
              simp only [reproduce, if_neg (Nat.succ_ne_zero q'), if_neg hd, hmin]
            · simpa using ih1
            · exact ih2
            · exact ih3
            · exact ih4

/-- Slot-level description of the respawn loop.  An Alive slot keeps its
power and id, and its age is incremented exactly when fewer Dead slots
precede it than the quota (otherwise the loop has already stopped and
the slot is untouched).  A Dead slot is overwritten with a fresh child
(id `n +` number of preceding Dead slots) exactly when fewer Dead slots
precede it than the quota, and is untouched otherwise. -/
theorem reproduce_getD (avg mu : ℚ) (rand : ℕ → ℚ) :
    ∀ (l : List Individual) (n q ix i : ℕ), i < l.length →
      (((l.getD i default).l = Status.Alive →
          (reproduce avg mu rand l n q ix).p.getD i default =
            { l.getD i default with
                a := if deadCount (l.take i) < q then (l.getD i default).a + 1
                     else (l.getD i default).a }) ∧
       ((l.getD i default).l = Status.Dead →
          (deadCount (l.take i) < q →
             (reproduce avg mu rand l n q ix).p.getD i default =
               ⟨avg + uniform (-1 * mu) mu (rand (ix + deadCount (l.take i))), Status.Alive,
                 n + deadCount (l.take i), 0⟩) ∧
          (¬ deadCount (l.take i) < q →
             (reproduce avg mu rand l n q ix).p.getD i default = l.getD i default))) := by
  intro l
  induction l with
  | nil => intro n q ix i hi; exact absurd hi (Nat.not_lt_zero i)
  | cons v rest ih =>
      intro n q ix i hi
      match q with
      | 0 =>
          simp only [reproduce, if_pos rfl]
          constructor
          · intro _
            simp [Nat.not_lt_zero]
          · intro _
            exact ⟨fun h => absurd h (Nat.not_lt_zero _), fun _ => rfl⟩
      | q' + 1 =>
          by_cases hd : v.l = Status.Dead
          · match i with
            | 0 =>
                simp only [reproduce, if_neg (Nat.succ_ne_zero q'), if_pos hd,
                  List.getD_cons_zero, List.take_zero, deadCount]
                constructor
                · intro ha; rw [hd] at ha; exact absurd ha (by simp)
                · intro _
                  refine ⟨fun _ => ?_, fun hn => absurd (Nat.succ_pos q') hn⟩
                  simp
            | j + 1 =>
                have hj : j < rest.length := Nat.lt_of_succ_lt_succ (by simpa using hi)
                have hdc : deadCount ((v :: rest).take (j + 1)) = 1 + deadCount (rest.take j) := by
                  simp [List.take_succ_cons, deadCount, hd]
                obtain ⟨ihA, ihD⟩ := ih (n + 1) q' (ix + 1) j hj
                simp only [reproduce, if_neg (Nat.succ_ne_zero q'), if_pos hd,
                  List.getD_cons_succ, hdc, Nat.add_sub_cancel]
                have hcond : (1 + deadCount (rest.take j) < q' + 1) ↔
                    (deadCount (rest.take j) < q') := by omega
                constructor
                · intro ha
                  rw [ihA ha]
                  by_cases hc : deadCount (rest.take j) < q'
                  · rw [if_pos hc, if_pos (hcond.mpr hc)]
                  · rw [if_neg hc, if_neg (fun h => hc (hcond.mp h))]
                · intro hdd
                  obtain ⟨ih1, ih2⟩ := ihD hdd
                  refine ⟨fun hc => ?_, fun hc => ?_⟩
                  · rw [ih1 (hcond.mp hc)]
                    have e1 : ix + 1 + deadCount (rest.take j) = ix + (1 + deadCount (rest.take j)) := by omega
                    have e2 : n + 1 + deadCount (rest.take j) = n + (1 + deadCount (rest.take j)) := by omega
                    rw [e1, e2]
                  · exact ih2 (fun h => hc (hcond.mpr h))
          · match i with
            | 0 =>
                simp only [reproduce, if_neg (Nat.succ_ne_zero q'), if_neg hd,
                  List.getD_cons_zero, List.take_zero, deadCount]
                constructor
                · intro _
                  simp [Nat.succ_pos]
                · intro ha; exact absurd ha hd
            | j + 1 =>
                have hj : j < rest.length := Nat.lt_of_succ_lt_succ (by simpa using hi)
                have hdc : deadCount ((v :: rest).take (j + 1)) = deadCount (rest.take j) := by
                  simp [List.take_succ_cons, deadCount, hd]
                obtain ⟨ihA, ihD⟩ := ih n (q' + 1) ix j hj
                simp only [reproduce, if_neg (Nat.succ_ne_zero q'), if_neg hd,
                  List.getD_cons_succ, hdc]
                exact ⟨ihA, ihD⟩

/-- Frame property of the `pressure` loop: length, power, id and age of
every slot are unchanged; a slot's status either stays what it was or
moves from Alive to Dead. -/
theorem pressureGo_facts (env : ℚ) (rand : ℕ → ℚ) :
    ∀ (l : List Individual) (ix : ℕ),
      (pressureGo env rand l ix).1.length = l.length ∧
      ∀ i : ℕ,
        ((pressureGo env rand l ix).1.getD i default).s = (l.getD i default).s ∧
        ((pressureGo env rand l ix).1.getD i default).id = (l.getD i default).id ∧
        ((pressureGo env rand l ix).1.getD i default).a = (l.getD i default).a ∧
        (((pressureGo env rand l ix).1.getD i default).l = (l.getD i default).l ∨
          ((l.getD i default).l = Status.Alive ∧
            ((pressureGo env rand l ix).1.getD i default).l = Status.Dead)) := by
  intro l
  induction l with
  | nil => intro ix; exact ⟨rfl, fun i => ⟨rfl, rfl, rfl, Or.inl rfl⟩⟩
  | cons v rest ih =>
      intro ix
      obtain ⟨ihl, ihi⟩ := ih (kill (env - v.s) rand ix).2
      constructor
      · simpa [pressureGo] using ihl
      · intro i
        match i with
        | 0 =>
            simp only [pressureGo, List.getD_cons_zero]
            by_cases hk : (kill (env - v.s) rand ix).1 = some true
            · rw [if_pos hk]
              refine ⟨rfl, rfl, rfl, ?_⟩
              match hv : v.l with
              | Status.Alive => exact Or.inr ⟨rfl, rfl⟩
              | Status.Dead => exact Or.inl rfl
            · rw [if_neg hk]
              exact ⟨rfl, rfl, rfl, Or.inl rfl⟩
        | j + 1 =>
            simp only [pressureGo, List.getD_cons_succ]
            exact ihi j

theorem parent_power_snd (p : List Individual) : (parent_power p).2 = (livingSum p).2 := by
  unfold parent_power
  by_cases h : (livingSum p).2 = 0 <;> simp [h]

/-- The extinction guard `avg == 0 or count == 1` of `simulate`, spelled
out on the sum and count of living powers: it fires exactly when at most
one individual is alive or the living powers sum to zero. -/
theorem parent_power_guard_iff (p : List Individual) :
    ((parent_power p).1 = 0 ∨ (parent_power p).2 = 1) ↔
      ((livingSum p).2 ≤ 1 ∨ (livingSum p).1 = 0) := by
  by_cases h : (livingSum p).2 = 0
  · simp [parent_power, h]
  · have hcast : ((livingSum p).2 : ℚ) ≠ 0 := Nat.cast_ne_zero.mpr h
    simp only [parent_power, if_neg h]
    constructor
    · rintro (h0 | h1)
      · exact Or.inr ((div_eq_zero_iff.mp h0).resolve_right hcast)
      · exact Or.inl (le_of_eq h1)
    · rintro (hle | hs)
      · exact Or.inr (by omega)
      · exact Or.inl (by rw [hs, zero_div])

/-- The per-generation extinction test: `genStep` stops (returns `none`)
exactly when at most one individual is alive or the living powers sum to
zero. -/
theorem genStep_eq_none_iff (gen : ℕ) (rand : ℕ → ℚ) (st : GenState) :
    genStep gen rand st = none ↔
      ((livingSum st.p).2 ≤ 1 ∨ (livingSum st.p).1 = 0) := by
  rw [← parent_power_guard_iff]
  simp only [genStep]
  by_cases h : (parent_power st.p).1 = 0 ∨ (parent_power st.p).2 = 1
  · simp [h]
  · simp [h]

/-- A surviving generation keeps the birth log equal to `range n`. -/
theorem genStep_created_inv (gen : ℕ) (rand : ℕ → ℚ) (st st' : GenState)
    (h : genStep gen rand st = some st') (hc : st.created = List.range st.n) :
    st'.created = List.range st'.n := by
  simp only [genStep] at h
  by_cases hg : (parent_power st.p).1 = 0 ∨ (parent_power st.p).2 = 1
  · rw [if_pos hg] at h; exact absurd h (by simp)
  · rw [if_neg hg] at h
    injection h with h
    subst h
    obtain ⟨-, -, hn, hb⟩ := reproduce_spec (parent_power st.p).1
      ((gen : ℚ) / 100 + 3 + (6 / ((parent_power st.p).2 : ℚ)) ^ 2) rand st.p st.n
      ((parent_power st.p).2 * 2) st.ix
    simp only [hc, hb, hn, List.range_eq_range']
    have h2 := List.range'_append_1 0 st.n ((parent_power st.p).2 * 2 ⊓ deadCount st.p)
    simpa [Nat.zero_add, Nat.add_comm] using h2

/-- A surviving generation keeps the population length. -/
theorem genStep_length (gen : ℕ) (rand : ℕ → ℚ) (st st' : GenState)
    (h : genStep gen rand st = some st') : st'.p.length = st.p.length := by
  simp only [genStep] at h
  by_cases hg : (parent_power st.p).1 = 0 ∨ (parent_power st.p).2 = 1
  · rw [if_pos hg] at h; exact absurd h (by simp)
  · rw [if_neg hg] at h
    injection h with h
    subst h
    obtain ⟨hl, -, -, -⟩ := reproduce_spec (parent_power st.p).1
      ((gen : ℚ) / 100 + 3 + (6 / ((parent_power st.p).2 : ℚ)) ^ 2) rand st.p st.n
      ((parent_power st.p).2 * 2) st.ix
    obtain ⟨hpl, -⟩ := pressureGo_facts (((gen : ℚ) + 5) * (0.8 + (gen : ℚ) / 200)) rand
      (reproduce (parent_power st.p).1
        ((gen : ℚ) / 100 + 3 + (6 / ((parent_power st.p).2 : ℚ)) ^ 2) rand st.p st.n
        ((parent_power st.p).2 * 2) st.ix).p
      (reproduce (parent_power st.p).1
        ((gen : ℚ) / 100 + 3 + (6 / ((parent_power st.p).2 : ℚ)) ^ 2) rand st.p st.n
        ((parent_power st.p).2 * 2) st.ix).ix
    simpa [pressure] using hpl.trans hl

/-- The birth-log invariant holds at the end of any run. -/
theorem runGens_created (rand : ℕ → ℚ) :
    ∀ (gens gen : ℕ) (st : GenState), st.created = List.range st.n →
      ((runGens rand gens gen st).1).created = List.range ((runGens rand gens gen st).1).n := by
  intro gens
  induction gens with
  | zero => intro gen st hc; simpa [runGens] using hc
  | succ g ih =>
      intro gen st hc
      simp only [runGens]
      cases h : genStep gen rand st with
      | none => simpa using hc
      | some st' => exact ih (gen + 1) st' (genStep_created_inv gen rand st st' h hc)

/-- The population length is constant along any run. -/
theorem runGens_length (rand : ℕ → ℚ) :
    ∀ (gens gen : ℕ) (st : GenState),
      ((runGens rand gens gen st).1).p.length = st.p.length := by
  intro gens
  induction gens with
  | zero => intro gen st; simp [runGens]
  | succ g ih =>
      intro gen st
      simp only [runGens]
      cases h : genStep gen rand st with
      | none => simp
      | some st' => rw [ih (gen + 1) st', genStep_length gen rand st st' h]

/-- The loop body of `print_living` on an Alive individual, with the
three tracker updates spelled out. -/
theorem printLivingLoop_step (v : Individual) (rest : List Individual) (e : Extremes)
    (hv : v.l = Status.Alive) :
    printLivingLoop (v :: rest) e = printLivingLoop rest
      { weak := if e.weak > v.s ∨ e.weak = 0 then v.s else e.weak
        wid := if e.weak > v.s ∨ e.weak = 0 then v.id else e.wid
        strong := if e.strong < v.s then v.s else e.strong
        sid := if e.strong < v.s then v.id else e.sid
        old := if e.old < v.a then v.a else e.old
        oid := if e.old < v.a then v.id else e.oid } := by
  simp only [printLivingLoop, if_pos hv]
  by_cases h1 : e.weak > v.s ∨ e.weak = 0 <;>
    by_cases h2 : e.strong < v.s <;>
      by_cases h3 : e.old < v.a <;>
        simp [h1, h2, h3]

/-- The `strong`/`sid` trackers of `print_living`: the final `strong`
dominates the initial value and every living power, and either the
trackers were never updated or the final value strictly exceeds the
initial one and the trackers report a living individual's power and
id. -/
theorem printLivingLoop_strong (l : List Individual) :
    ∀ e : Extremes,
      e.strong ≤ (printLivingLoop l e).strong ∧
      (∀ v ∈ l, v.l = Status.Alive → v.s ≤ (printLivingLoop l e).strong) ∧
      (((printLivingLoop l e).strong = e.strong ∧ (printLivingLoop l e).sid = e.sid) ∨
        (e.strong < (printLivingLoop l e).strong ∧
          ∃ v ∈ l, v.l = Status.Alive ∧ v.s = (printLivingLoop l e).strong ∧
            v.id = (printLivingLoop l e).sid)) := by
  induction l with
  | nil => intro e; exact ⟨le_refl _, by simp, Or.inl ⟨rfl, rfl⟩⟩
  | cons v rest ih =>
      intro e
      by_cases hv : v.l = Status.Alive
      · rw [printLivingLoop_step v rest e hv]
        obtain ⟨ih1, ih2, ih3⟩ := ih
          { weak := if e.weak > v.s ∨ e.weak = 0 then v.s else e.weak,
            wid := if e.weak > v.s ∨ e.weak = 0 then v.id else e.wid,
            strong := if e.strong < v.s then v.s else e.strong,
            sid := if e.strong < v.s then v.id else e.sid,
            old := if e.old < v.a then v.a else e.old,
            oid := if e.old < v.a then v.id else e.oid }
        refine ⟨?_, ?_, ?_⟩
        · refine le_trans ?_ ih1
          by_cases h2 : e.strong < v.s
          · simp only [h2, if_true]; exact le_of_lt h2
          · simp [h2]
        · intro w hw hal
          rcases List.mem_cons.mp hw with rfl | hw
          · refine le_trans ?_ ih1
            by_cases h2 : e.strong < w.s
            · simp [h2]
            · simp only [h2, if_false]; exact le_of_not_lt h2
          · exact ih2 w hw hal
        · rcases ih3 with ⟨heq, hsid⟩ | ⟨hlt, w, hw, hal, hs, hid⟩
          · by_cases h2 : e.strong < v.s
            · refine Or.inr ⟨?_, v, List.mem_cons_self v rest, hv, ?_, ?_⟩
              · rw [heq]; simp [h2]
              · rw [heq]; simp [h2]
              · rw [hsid]; simp [h2]
            · refine Or.inl ⟨?_, ?_⟩
              · rw [heq]; simp [h2]
              · rw [hsid]; simp [h2]
          · refine Or.inr ⟨?_, w, List.mem_cons_of_mem _ hw, hal, hs, hid⟩
            refine lt_of_le_of_lt ?_ hlt
            by_cases h2 : e.strong < v.s
            · simp only [h2, if_true]; exact le_of_lt h2
            · simp [h2]
      · have hstep : printLivingLoop (v :: rest) e = printLivingLoop rest e := by
          simp [printLivingLoop, hv]
        rw [hstep]
        obtain ⟨ih1, ih2, ih3⟩ := ih e
        refine ⟨ih1, ?_, ?_⟩
        · intro w hw hal
          rcases List.mem_cons.mp hw with rfl | hw
          · exact absurd hal hv
          · exact ih2 w hw hal
        · rcases ih3 with h | ⟨hlt, w, hw, hrest⟩
          · exact Or.inl h
          · exact Or.inr ⟨hlt, w, List.mem_cons_of_mem _ hw, hrest⟩

/-- The `old`/`oid` trackers of `print_living`: the final `old`
dominates the initial value and every living age, and either the
trackers were never updated or the final value strictly exceeds the
initial one and the trackers report a living individual's age and
id. -/
theorem printLivingLoop_old (l : List Individual) :
    ∀ e : Extremes,
      e.old ≤ (printLivingLoop l e).old ∧
      (∀ v ∈ l, v.l = Status.Alive → v.a ≤ (printLivingLoop l e).old) ∧
      (((printLivingLoop l e).old = e.old ∧ (printLivingLoop l e).oid = e.oid) ∨
        (e.old < (printLivingLoop l e).old ∧
          ∃ v ∈ l, v.l = Status.Alive ∧ v.a = (printLivingLoop l e).old ∧
            v.id = (printLivingLoop l e).oid)) := by
  induction l with
  | nil => intro e; exact ⟨le_refl _, by simp, Or.inl ⟨rfl, rfl⟩⟩
  | cons v rest ih =>
      intro e
      by_cases hv : v.l = Status.Alive
      · rw [printLivingLoop_step v rest e hv]
        obtain ⟨ih1, ih2, ih3⟩ := ih
          { weak := if e.weak > v.s ∨ e.weak = 0 then v.s else e.weak,
            wid := if e.weak > v.s ∨ e.weak = 0 then v.id else e.wid,
            strong := if e.strong < v.s then v.s else e.strong,
            sid := if e.strong < v.s then v.id else e.sid,
            old := if e.old < v.a then v.a else e.old,
            oid := if e.old < v.a then v.id else e.oid }
        refine ⟨?_, ?_, ?_⟩
        · refine le_trans ?_ ih1
          by_cases h3 : e.old < v.a
          · simp only [h3, if_true]; exact le_of_lt h3
          · simp [h3]
        · intro w hw hal
          rcases List.mem_cons.mp hw with rfl | hw
          · refine le_trans ?_ ih1
            by_cases h3 : e.old < w.a
            · simp [h3]
            · simp only [h3, if_false]; exact le_of_not_lt h3
          · exact ih2 w hw hal
        · rcases ih3 with ⟨heq, hoid⟩ | ⟨hlt, w, hw, hal, hs, hid⟩
          · by_cases h3 : e.old < v.a
            · refine Or.inr ⟨?_, v, List.mem_cons_self v rest, hv, ?_, ?_⟩
              · rw [heq]; simp [h3]
              · rw [heq]; simp [h3]
              · rw [hoid]; simp [h3]
            · refine Or.inl ⟨?_, ?_⟩
              · rw [heq]; simp [h3]
              · rw [hoid]; simp [h3]
          · refine Or.inr ⟨?_, w, List.mem_cons_of_mem _ hw, hal, hs, hid⟩
            refine lt_of_le_of_lt ?_ hlt
            by_cases h3 : e.old < v.a
            · simp only [h3, if_true]; exact le_of_lt h3
            · simp [h3]
      · have hstep : printLivingLoop (v :: rest) e = printLivingLoop rest e := by
          simp [printLivingLoop, hv]
        rw [hstep]
        obtain ⟨ih1, ih2, ih3⟩ := ih e
        refine ⟨ih1, ?_, ?_⟩
        · intro w hw hal
          rcases List.mem_cons.mp hw with rfl | hw
          · exact absurd hal hv
          · exact ih2 w hw hal
        · rcases ih3 with h | ⟨hlt, w, hw, hrest⟩
          · exact Or.inl h
          · exact Or.inr ⟨hlt, w, List.mem_cons_of_mem _ hw, hrest⟩

/-- The `weak`/`wid` trackers of `print_living`, in the regime where the
running `weak` is nonzero and no Alive power is zero (so the spurious
`weak == 0` re-trigger of the source's update condition cannot fire):
the tracker behaves as a running minimum. -/
theorem printLivingLoop_weak_ne (l : List Individual) :
    ∀ e : Extremes, e.weak ≠ 0 → (∀ v ∈ l, v.l = Status.Alive → v.s ≠ 0) →
      (printLivingLoop l e).weak ≠ 0 ∧
      (printLivingLoop l e).weak ≤ e.weak ∧
      (∀ v ∈ l, v.l = Status.Alive → (printLivingLoop l e).weak ≤ v.s) ∧
      (((printLivingLoop l e).weak = e.weak ∧ (printLivingLoop l e).wid = e.wid) ∨
        ∃ v ∈ l, v.l = Status.Alive ∧ v.s = (printLivingLoop l e).weak ∧
          v.id = (printLivingLoop l e).wid) := by
  induction l with
  | nil => intro e hne hz; exact ⟨hne, le_refl _, by simp, Or.inl ⟨rfl, rfl⟩⟩
  | cons v rest ih =>
      intro e hne hz
      have hzr : ∀ w ∈ rest, w.l = Status.Alive → w.s ≠ 0 :=
        fun w hw => hz w (List.mem_cons_of_mem _ hw)
      by_cases hv : v.l = Status.Alive
      · have hvs : v.s ≠ 0 := hz v (List.mem_cons_self v rest) hv
        rw [printLivingLoop_step v rest e hv]
        by_cases hlt : e.weak > v.s
        · have hc : e.weak > v.s ∨ e.weak = 0 := Or.inl hlt
          have hEw : (Extremes.mk (if e.weak > v.s ∨ e.weak = 0 then v.s else e.weak)
              (if e.weak > v.s ∨ e.weak = 0 then v.id else e.wid)
              (if e.strong < v.s then v.s else e.strong)
              (if e.strong < v.s then v.id else e.sid)
              (if e.old < v.a then v.a else e.old)
              (if e.old < v.a then v.id else e.oid)).weak = v.s := if_pos hc
          have hEi : (Extremes.mk (if e.weak > v.s ∨ e.weak = 0 then v.s else e.weak)
              (if e.weak > v.s ∨ e.weak = 0 then v.id else e.wid)
              (if e.strong < v.s then v.s else e.strong)
              (if e.strong < v.s then v.id else e.sid)
              (if e.old < v.a then v.a else e.old)
              (if e.old < v.a then v.id else e.oid)).wid = v.id := if_pos hc
          obtain ⟨f1, f2, f3, f4⟩ := ih
            { weak := if e.weak > v.s ∨ e.weak = 0 then v.s else e.weak,
              wid := if e.weak > v.s ∨ e.weak = 0 then v.id else e.wid,
              strong := if e.strong < v.s then v.s else e.strong,
              sid := if e.strong < v.s then v.id else e.sid,
              old := if e.old < v.a then v.a else e.old,
              oid := if e.old < v.a then v.id else e.oid }
            (by rw [hEw]; exact hvs) hzr
          rw [hEw] at f2
          rw [hEw, hEi] at f4
          refine ⟨f1, le_trans f2 (le_of_lt hlt), ?_, ?_⟩
          · intro w hw hal
            rcases List.mem_cons.mp hw with rfl | hw
            · exact f2
            · exact f3 w hw hal
          · rcases f4 with ⟨h1, h2⟩ | ⟨w, hw, hal, hs, hid⟩
            · exact Or.inr ⟨v, List.mem_cons_self v rest, hv, h1.symm, h2.symm⟩
            · exact Or.inr ⟨w, List.mem_cons_of_mem _ hw, hal, hs, hid⟩
        · have hc : ¬(e.weak > v.s ∨ e.weak = 0) := fun hcc => hcc.elim hlt hne
          have hEw : (Extremes.mk (if e.weak > v.s ∨ e.weak = 0 then v.s else e.weak)
              (if e.weak > v.s ∨ e.weak = 0 then v.id else e.wid)
              (if e.strong < v.s then v.s else e.strong)
              (if e.strong < v.s then v.id else e.sid)
              (if e.old < v.a then v.a else e.old)
              (if e.old < v.a then v.id else e.oid)).weak = e.weak := if_neg hc
          have hEi : (Extremes.mk (if e.weak > v.s ∨ e.weak = 0 then v.s else e.weak)
              (if e.weak > v.s ∨ e.weak = 0 then v.id else e.wid)
              (if e.strong < v.s then v.s else e.strong)
              (if e.strong < v.s then v.id else e.sid)
              (if e.old < v.a then v.a else e.old)
              (if e.old < v.a then v.id else e.oid)).wid = e.wid := if_neg hc
          obtain ⟨f1, f2, f3, f4⟩ := ih
            { weak := if e.weak > v.s ∨ e.weak = 0 then v.s else e.weak,
              wid := if e.weak > v.s ∨ e.weak = 0 then v.id else e.wid,
              strong := if e.strong < v.s then v.s else e.strong,
              sid := if e.strong < v.s then v.id else e.sid,
              old := if e.old < v.a then v.a else e.old,
              oid := if e.old < v.a then v.id else e.oid }
            (by rw [hEw]; exact hne) hzr
          rw [hEw] at f2
          rw [hEw, hEi] at f4
          refine ⟨f1, f2, ?_, ?_⟩
          · intro w hw hal
            rcases List.mem_cons.mp hw with rfl | hw
            · exact le_trans f2 (le_of_not_lt hlt)
            · exact f3 w hw hal
          · rcases f4 with h | ⟨w, hw, hal, hs, hid⟩
            · exact Or.inl h
            · exact Or.inr ⟨w, List.mem_cons_of_mem _ hw, hal, hs, hid⟩
      · have hstep : printLivingLoop (v :: rest) e = printLivingLoop rest e := by
          simp [printLivingLoop, hv]
        rw [hstep]
        obtain ⟨f1, f2, f3, f4⟩ := ih e hne hzr
        refine ⟨f1, f2, ?_, ?_⟩
        · intro w hw hal
          rcases List.mem_cons.mp hw with rfl | hw
          · exact absurd hal hv
          · exact f3 w hw hal
        · rcases f4 with h | ⟨w, hw, hal, hs, hid⟩
          · exact Or.inl h
          · exact Or.inr ⟨w, List.mem_cons_of_mem _ hw, hal, hs, hid⟩

/-- The `weak`/`wid` trackers of `print_living` from their initial value
`weak = 0`: provided no Alive individual has power exactly 0, and some
Alive individual exists, the trackers end at the minimum power among
Alive individuals together with the id of an Alive individual attaining
it.  (The zero-power proviso is necessary: an Alive power of exactly 0
re-arms the `weak == 0` branch of the update condition.) -/
theorem printLivingLoop_weak (l : List Individual) :
    ∀ e : Extremes, e.weak = 0 → (∀ v ∈ l, v.l = Status.Alive → v.s ≠ 0) →
      (∃ v ∈ l, v.l = Status.Alive) →
      (∀ v ∈ l, v.l = Status.Alive → (printLivingLoop l e).weak ≤ v.s) ∧
      ∃ v ∈ l, v.l = Status.Alive ∧ v.s = (printLivingLoop l e).weak ∧
        v.id = (printLivingLoop l e).wid := by
  induction l with
  | nil => intro e _ _ hex; exact absurd hex (by simp)
  | cons v rest ih =>
      intro e h0 hz hex
      have hzr : ∀ w ∈ rest, w.l = Status.Alive → w.s ≠ 0 :=
        fun w hw => hz w (List.mem_cons_of_mem _ hw)
      by_cases hv : v.l = Status.Alive
      · have hvs : v.s ≠ 0 := hz v (List.mem_cons_self v rest) hv
        rw [printLivingLoop_step v rest e hv]
        have hc : e.weak > v.s ∨ e.weak = 0 := Or.inr h0
        have hEw : (Extremes.mk (if e.weak > v.s ∨ e.weak = 0 then v.s else e.weak)
            (if e.weak > v.s ∨ e.weak = 0 then v.id else e.wid)
            (if e.strong < v.s then v.s else e.strong)
            (if e.strong < v.s then v.id else e.sid)
            (if e.old < v.a then v.a else e.old)
            (if e.old < v.a then v.id else e.oid)).weak = v.s := if_pos hc
        have hEi : (Extremes.mk (if e.weak > v.s ∨ e.weak = 0 then v.s else e.weak)
            (if e.weak > v.s ∨ e.weak = 0 then v.id else e.wid)
            (if e.strong < v.s then v.s else e.strong)
            (if e.strong < v.s then v.id else e.sid)
            (if e.old < v.a then v.a else e.old)
            (if e.old < v.a then v.id else e.oid)).wid = v.id := if_pos hc
        obtain ⟨f1, f2, f3, f4⟩ := printLivingLoop_weak_ne rest
          { weak := if e.weak > v.s ∨ e.weak = 0 then v.s else e.weak,
            wid := if e.weak > v.s ∨ e.weak = 0 then v.id else e.wid,
            strong := if e.strong < v.s then v.s else e.strong,
            sid := if e.strong < v.s then v.id else e.sid,
            old := if e.old < v.a then v.a else e.old,
            oid := if e.old < v.a then v.id else e.oid }
          (by rw [hEw]; exact hvs) hzr
        rw [hEw] at f2
        rw [hEw, hEi] at f4
        constructor
        · intro w hw hal
          rcases List.mem_cons.mp hw with rfl | hw
          · exact f2
          · exact f3 w hw hal
        · rcases f4 with ⟨h1, h2⟩ | ⟨w, hw, hal, hs, hid⟩
          · exact ⟨v, List.mem_cons_self v rest, hv, h1.symm, h2.symm⟩
          · exact ⟨w, List.mem_cons_of_mem _ hw, hal, hs, hid⟩
      · have hstep : printLivingLoop (v :: rest) e = printLivingLoop rest e := by
          simp [printLivingLoop, hv]
        rw [hstep]
        have hexr : ∃ w ∈ rest, w.l = Status.Alive := by
          rcases hex with ⟨w, hw, hal⟩
          rcases List.mem_cons.mp hw with rfl | hw
          · exact absurd hal hv
          · exact ⟨w, hw, hal⟩
        obtain ⟨g1, g2⟩ := ih e h0 hzr hexr
        constructor
        · intro w hw hal
          rcases List.mem_cons.mp hw with rfl | hw
          · exact absurd hal hv
          · exact g1 w hw hal
        · rcases g2 with ⟨w, hw, hal, hs, hid⟩
          exact ⟨w, List.mem_cons_of_mem _ hw, hal, hs, hid⟩

/-- `pressure` phrased through `pressureGo`: length and per-slot frame
facts. -/
theorem pressure_facts (p : List Individual) (gen : ℕ) (rand : ℕ → ℚ) (ix : ℕ) :
    (pressure p gen rand ix).1.length = p.length ∧
    ∀ i : ℕ,
      ((pressure p gen rand ix).1.getD i default).s = (p.getD i default).s ∧
      ((pressure p gen rand ix).1.getD i default).id = (p.getD i default).id ∧
      ((pressure p gen rand ix).1.getD i default).a = (p.getD i default).a ∧
      (((pressure p gen rand ix).1.getD i default).l = (p.getD i default).l ∨
        ((p.getD i default).l = Status.Alive ∧
          ((pressure p gen rand ix).1.getD i default).l = Status.Dead)) :=
  pressureGo_facts (((gen : ℚ) + 5) * (0.8 + (gen : ℚ) / 200)) rand p ix

/-! ### Claim theorems -/

/-- Claim C1, counterexample: a population of two Alive individuals with
powers 1 and -1 has `living_count = 2`, yet the driver transitions to
the extinct state (`genStep` returns `none`), because the source guard
is `avg == 0 or count == 1` and the average power is exactly 0.  This
refutes "whenever living_count >= 2 the generation proceeds regardless
of the individuals' power values". -/
theorem c1_counterexample :
    genStep 0 (fun _ => 0)
        ⟨[⟨1, Status.Alive, 0, 0⟩, ⟨-1, Status.Alive, 1, 0⟩], 2, 0, 0, 0, 0, 0, 0, 0,
          List.range 2⟩ = none ∧
    (livingSum [(⟨1, Status.Alive, 0, 0⟩ : Individual), ⟨-1, Status.Alive, 1, 0⟩]).2 = 2 ∧
    (parent_power [(⟨1, Status.Alive, 0, 0⟩ : Individual), ⟨-1, Status.Alive, 1, 0⟩]).2 = 2 := by
  with_unfolding_all decide

/-- Claim C1, amended: at the start of each generation the driver
transitions to the terminal extinct state if and only if the number of
Alive individuals is 0 or 1 **or the powers of the Alive individuals sum
to exactly 0** (the source guard is `avg == 0 or count == 1`); whenever
`living_count >= 2` and the living powers do not sum to 0, the
generation proceeds. -/
theorem c1_extinction_guard (gen : ℕ) (rand : ℕ → ℚ) (st : GenState) :
    genStep gen rand st = none ↔
      ((livingSum st.p).2 ≤ 1 ∨ (livingSum st.p).1 = 0) :=
  genStep_eq_none_iff gen rand st

/-- Claim C2: `kill` returns the falsy `None` for every deficit ≤ 0;
returns `False` after zero trials for deficits in (0,1); and for every
positive deficit returns `True` exactly when at least one of the
`⌊f⌋²` successive uniform draws exceeds 0.6 (hence `False` when all of
them are ≤ 0.6). -/
theorem c2_kill_spec (f : ℚ) (rand : ℕ → ℚ) (ix : ℕ) :
    (f ≤ 0 → (kill f rand ix).1 = none) ∧
    (0 < f → f < 1 → (kill f rand ix).1 = some false) ∧
    (0 < f → ((kill f rand ix).1 = some true ↔
      ∃ i, i < (⌊f⌋).toNat ^ 2 ∧ rand (ix + i) > 0.6)) := by
  refine ⟨?_, ?_, ?_⟩
  · intro h
    simp [kill, not_lt.mpr h]
  · intro h0 h1
    have hfl : ⌊f⌋ = 0 := Int.floor_eq_zero_iff.mpr ⟨le_of_lt h0, h1⟩
    have htr : (pyInt f).toNat ^ 2 = 0 := by
      rw [pyInt_of_nonneg (le_of_lt h0), hfl]; rfl
    simp [kill, h0, htr, killLoop]
  · intro h0
    have hp : pyInt f = ⌊f⌋ := pyInt_of_nonneg (le_of_lt h0)
    simp only [kill, if_pos h0, hp, Option.some.injEq]
    exact killLoop_true_iff rand ((⌊f⌋).toNat ^ 2) ix

/-- Witness for C2 at deficits -1, 1/2 and 2 with the constant draw
7/10. -/
theorem c2_kill_spec_witness :
    (kill (-1) (fun _ => (7 : ℚ)/10) 0).1 = none ∧
    (kill (1/2) (fun _ => (7 : ℚ)/10) 0).1 = some false ∧
    (kill 2 (fun _ => (7 : ℚ)/10) 0).1 = some true :=
  ⟨(c2_kill_spec (-1) (fun _ => (7 : ℚ)/10) 0).1 (by norm_num),
   (c2_kill_spec (1/2) (fun _ => (7 : ℚ)/10) 0).2.1 (by norm_num) (by norm_num),
   ((c2_kill_spec 2 (fun _ => (7 : ℚ)/10) 0).2.2 (by norm_num)).2
     ⟨0, by with_unfolding_all decide, by with_unfolding_all decide⟩⟩

/-- Claim C3: with the quota `2 * living_count` used by the driver, the
respawn pass spawns exactly `min (2*living_count) (number of Dead
slots)` children — never more than `2*living_count` — and the spawned
count equals the quota consumed; Dead slots preceded by fewer than
`2*living_count` Dead slots are overwritten in slot order with fresh
Alive children carrying consecutive ids, and every slot from the point
the quota is exhausted on is left untouched. -/
theorem c3_reproduce_quota (p : List Individual) (avg mu : ℚ) (rand : ℕ → ℚ) (n ix : ℕ) :
    (reproduce avg mu rand p n ((parent_power p).2 * 2) ix).born.length
        = min ((parent_power p).2 * 2) (deadCount p) ∧
    (reproduce avg mu rand p n ((parent_power p).2 * 2) ix).born.length
        ≤ (parent_power p).2 * 2 ∧
    ((parent_power p).2 * 2) - (reproduce avg mu rand p n ((parent_power p).2 * 2) ix).quota
        = (reproduce avg mu rand p n ((parent_power p).2 * 2) ix).born.length ∧
    (∀ i, i < p.length → (p.getD i default).l = Status.Dead →
        deadCount (p.take i) < (parent_power p).2 * 2 →
        (reproduce avg mu rand p n ((parent_power p).2 * 2) ix).p.getD i default =
          ⟨avg + uniform (-1 * mu) mu (rand (ix + deadCount (p.take i))), Status.Alive,
            n + deadCount (p.take i), 0⟩) ∧
    (∀ i, i < p.length → (p.getD i default).l = Status.Dead →
        ¬ deadCount (p.take i) < (parent_power p).2 * 2 →
        (reproduce avg mu rand p n ((parent_power p).2 * 2) ix).p.getD i default
          = p.getD i default) := by
  obtain ⟨-, hq, -, hb⟩ := reproduce_spec avg mu rand p n ((parent_power p).2 * 2) ix
  have hlen : (reproduce avg mu rand p n ((parent_power p).2 * 2) ix).born.length
      = min ((parent_power p).2 * 2) (deadCount p) := by rw [hb, List.length_range']
  refine ⟨hlen, ?_, ?_, ?_, ?_⟩
  · rw [hlen]; exact min_le_left _ _
  · rw [hq, hlen]
    have := Nat.min_le_left ((parent_power p).2 * 2) (deadCount p)
    omega
  · intro i hi hdead hc
    exact ((reproduce_getD avg mu rand p n ((parent_power p).2 * 2) ix i hi).2 hdead).1 hc
  · intro i hi hdead hc
    exact ((reproduce_getD avg mu rand p n ((parent_power p).2 * 2) ix i hi).2 hdead).2 hc

/-- The population used by the C3 witness and the C4 counterexample:
eight Dead slots followed by two Alive individuals of power 100
(`parent_power` gives count 2, so the quota is 4 and is exhausted at
slot 4, before the Alive slots are reached). -/
def cxPop : List Individual :=
  [⟨0, Status.Dead, 0, 0⟩, ⟨0, Status.Dead, 1, 0⟩, ⟨0, Status.Dead, 2, 0⟩,
   ⟨0, Status.Dead, 3, 0⟩, ⟨0, Status.Dead, 4, 0⟩, ⟨0, Status.Dead, 5, 0⟩,
   ⟨0, Status.Dead, 6, 0⟩, ⟨0, Status.Dead, 7, 0⟩,
   ⟨100, Status.Alive, 8, 0⟩, ⟨100, Status.Alive, 9, 0⟩]

/-- The simulation state holding `cxPop` with next id 10. -/
def cxState : GenState := ⟨cxPop, 10, 0, 0, 0, 0, 0, 0, 0, List.range 10⟩

/-- Witness for C3 on `cxPop`: slot 0 (Dead, quota available) is
overwritten with a child of id 10, slot 4 (Dead, quota exhausted) is
untouched. -/
theorem c3_reproduce_quota_witness :
    (reproduce 100 12 (fun _ => 0) cxPop 10 ((parent_power cxPop).2 * 2) 0).p.getD 0 default =
      ⟨100 + uniform (-1 * 12) 12 ((fun _ => (0 : ℚ)) (0 + deadCount (cxPop.take 0))),
        Status.Alive, 10 + deadCount (cxPop.take 0), 0⟩ ∧
    (reproduce 100 12 (fun _ => 0) cxPop 10 ((parent_power cxPop).2 * 2) 0).p.getD 4 default =
      cxPop.getD 4 default :=
  ⟨(c3_reproduce_quota cxPop 100 12 (fun _ => 0) 10 0).2.2.2.1 0
      (by with_unfolding_all decide) (by with_unfolding_all decide)
      (by with_unfolding_all decide),
   (c3_reproduce_quota cxPop 100 12 (fun _ => 0) 10 0).2.2.2.2 4
      (by with_unfolding_all decide) (by with_unfolding_all decide)
      (by with_unfolding_all decide)⟩

/-- Claim C7: whenever a generation proceeds past the extinction check
(so the mutation-spread expression with its division `6 / living_count`
is evaluated), the living count is at least 2 and in particular its cast
is a nonzero denominator. -/
theorem c7_spread_guard (gen : ℕ) (rand : ℕ → ℚ) (st : GenState)
    (h : genStep gen rand st ≠ none) :
    2 ≤ (parent_power st.p).2 ∧ ((parent_power st.p).2 : ℚ) ≠ 0 := by
  rw [Ne, genStep_eq_none_iff] at h
  push_neg at h
  obtain ⟨hcount, -⟩ := h
  have h2 : 2 ≤ (livingSum st.p).2 := by omega
  constructor
  · rw [parent_power_snd]; exact h2
  · rw [parent_power_snd]
    exact Nat.cast_ne_zero.mpr (by omega)

/-- Witness for C7: a two-survivor state passes the check. -/
theorem c7_spread_guard_witness :
    2 ≤ (parent_power [(⟨1, Status.Alive, 0, 0⟩ : Individual), ⟨2, Status.Alive, 1, 0⟩]).2 ∧
    ((parent_power [(⟨1, Status.Alive, 0, 0⟩ : Individual), ⟨2, Status.Alive, 1, 0⟩]).2 : ℚ) ≠ 0 :=
  c7_spread_guard 0 (fun _ => 0)
    ⟨[⟨1, Status.Alive, 0, 0⟩, ⟨2, Status.Alive, 1, 0⟩], 2, 0, 0, 0, 0, 0, 0, 0, List.range 2⟩
    (by with_unfolding_all decide)

/-- Claim C8: ids are globally unique across a whole run: `initialize`
assigns ids 0..pop-1 in creation order and returns `pop` as the next id,
and after any number of generations the log of every id ever assigned is
exactly `range n` for the final next id `n` — duplicate-free. -/
theorem c8_id_unique (pop gens : ℕ) (tri rand : ℕ → ℚ) :
    (initPop pop tri).1.map (fun v => v.id) = List.range pop ∧
    (initPop pop tri).2 = pop ∧
    ((simulate pop gens tri rand).1).created
        = List.range ((simulate pop gens tri rand).1).n ∧
    ((simulate pop gens tri rand).1).created.Nodup := by
  have hmap : (initPop pop tri).1.map (fun v => v.id) = List.range pop := by
    simp [initPop, List.map_map, Function.comp_def]
  have hinit : (initState pop tri).created = List.range (initState pop tri).n := hmap
  have hrun := runGens_created rand gens 0 (initState pop tri) hinit
  refine ⟨hmap, rfl, hrun, ?_⟩
  show (runGens rand gens 0 (initState pop tri)).1.created.Nodup
  rw [hrun]
  exact List.nodup_range _

/-- Claim C9: the population list has length `pop` after initialization
and its length is preserved by every respawn pass, every pressure
application, and any whole run. -/
theorem c9_length_invariant (pop gens : ℕ) (tri rand : ℕ → ℚ)
    (p : List Individual) (avg mu : ℚ) (rand' : ℕ → ℚ) (n q ix gen : ℕ) :
    (initPop pop tri).1.length = pop ∧
    (reproduce avg mu rand' p n q ix).p.length = p.length ∧
    (pressure p gen rand' ix).1.length = p.length ∧
    ((simulate pop gens tri rand).1).p.length = pop := by
  refine ⟨by simp [initPop], (reproduce_spec avg mu rand' p n q ix).1,
    (pressure_facts p gen rand' ix).1, ?_⟩
  rw [simulate, runGens_length]
  simp [initState, initPop]

/-- Claim C10: `pressure` keeps every slot's power, id and age
unchanged, and a slot's status either stays what it was (in particular
Dead slots, to which the death test is also applied, stay Dead) or
moves from Alive to Dead; no other mutation happens. -/
theorem c10_pressure_frame (p : List Individual) (gen : ℕ) (rand : ℕ → ℚ) (ix i : ℕ) :
    (pressure p gen rand ix).1.length = p.length ∧
    ((pressure p gen rand ix).1.getD i default).s = (p.getD i default).s ∧
    ((pressure p gen rand ix).1.getD i default).id = (p.getD i default).id ∧
    ((pressure p gen rand ix).1.getD i default).a = (p.getD i default).a ∧
    (((pressure p gen rand ix).1.getD i default).l = (p.getD i default).l ∨
      ((p.getD i default).l = Status.Alive ∧
        ((pressure p gen rand ix).1.getD i default).l = Status.Dead)) :=
  ⟨(pressure_facts p gen rand ix).1, (pressure_facts p gen rand ix).2 i⟩

/-- Claim C4, counterexample: in `cxState` the individual in slot 8 (id
8) is Alive with age 0 when the generation runs; the generation proceeds
(two survivors) and the individual is still Alive afterwards — it
survived the generation — yet its age is still 0, because the respawn
loop `break`s once the quota of 4 children is spent at slot 4, so the
Alive slots 8 and 9 are never visited and never aged. -/
theorem c4_counterexample :
    (cxPop.getD 8 default).l = Status.Alive ∧ (cxPop.getD 8 default).a = 0 ∧
    (cxPop.getD 8 default).id = 8 ∧
    ((genStep 0 (fun _ => 0) cxState).map
      (fun st' => ((st'.p.getD 8 default).id, (st'.p.getD 8 default).l,
        (st'.p.getD 8 default).a))) = some (8, Status.Alive, 0) := by
  with_unfolding_all decide

/-- Claim C4, amended: an individual Alive when the reproduction pass
runs keeps its id through the generation, and its age increases by
exactly one when fewer than `2 * living_count` Dead slots precede its
slot; otherwise (the quota was exhausted before its slot was visited)
its age is unchanged. -/
theorem c4_age_characterization (gen : ℕ) (rand : ℕ → ℚ) (st : GenState) (i : ℕ)
    (hi : i < st.p.length) (hal : (st.p.getD i default).l = Status.Alive) :
    (genStep gen rand st).elim True (fun st' =>
      (st'.p.getD i default).id = (st.p.getD i default).id ∧
      (st'.p.getD i default).a =
        (if deadCount (st.p.take i) < (parent_power st.p).2 * 2
         then (st.p.getD i default).a + 1 else (st.p.getD i default).a)) := by
  cases h : genStep gen rand st with
  | none => exact trivial
  | some st' =>
      simp only [Option.elim]
      simp only [genStep] at h
      by_cases hg : (parent_power st.p).1 = 0 ∨ (parent_power st.p).2 = 1
      · rw [if_pos hg] at h; exact absurd h (by simp)
      · rw [if_neg hg] at h
        injection h with h
        subst h
        dsimp only
        obtain ⟨hA, -⟩ := reproduce_getD (parent_power st.p).1
          ((gen : ℚ) / 100 + 3 + (6 / ((parent_power st.p).2 : ℚ)) ^ 2) rand st.p st.n
          ((parent_power st.p).2 * 2) st.ix i hi
        have hrep := hA hal
        obtain ⟨-, hid, ha, -⟩ := (pressure_facts (reproduce (parent_power st.p).1
          ((gen : ℚ) / 100 + 3 + (6 / ((parent_power st.p).2 : ℚ)) ^ 2) rand st.p st.n
          ((parent_power st.p).2 * 2) st.ix).p gen rand
          (reproduce (parent_power st.p).1
          ((gen : ℚ) / 100 + 3 + (6 / ((parent_power st.p).2 : ℚ)) ^ 2) rand st.p st.n
          ((parent_power st.p).2 * 2) st.ix).ix).2 i
        constructor
        · rw [hid, hrep]
        · rw [ha, hrep]

/-- Witness for C4 (amended) on `cxState` at slot 8: the quota condition
is false there, so the age is reported unchanged. -/
theorem c4_age_characterization_witness :
    (genStep 0 (fun _ => 0) cxState).elim True (fun st' =>
      (st'.p.getD 8 default).id = (cxState.p.getD 8 default).id ∧
      (st'.p.getD 8 default).a =
        (if deadCount (cxState.p.take 8) < (parent_power cxState.p).2 * 2
         then (cxState.p.getD 8 default).a + 1 else (cxState.p.getD 8 default).a)) :=
  c4_age_characterization 0 (fun _ => 0) cxState 8
    (by with_unfolding_all decide) (by with_unfolding_all decide)

/-- Claim C5, counterexample: two populations refute the claim.  (a) a
population whose only individual is Alive with power -1, id 7, age 0:
`print_living` returns `(strong, sid, old, oid) = (0, 0, 1, 0)` — the
returned "maximum power" 0, "maximum age" 1 and the holder ids 0 are
attained by no Alive individual (the trackers start at `strong = 0`,
`old = 1` and are never updated).  (b) two Alive individuals of powers
0 (id 1) and 5 (id 2): the weak tracker ends at 5 with holder id 2,
although an Alive individual has the strictly smaller power 0 — the
`weak == 0` branch of the update condition re-fires after power 0 is
recorded, so the determined "minimum power" is not the minimum. -/
theorem c5_counterexample :
    (∀ v ∈ [(⟨-1, Status.Alive, 7, 0⟩ : Individual)], v.l = Status.Alive) ∧
    print_living [(⟨-1, Status.Alive, 7, 0⟩ : Individual)] = (0, 0, 1, 0) ∧
    (∀ v ∈ [(⟨-1, Status.Alive, 7, 0⟩ : Individual)], v.s ≠ 0 ∧ v.id ≠ 0 ∧ v.a ≠ 1) ∧
    (∀ v ∈ [(⟨0, Status.Alive, 1, 0⟩ : Individual), ⟨5, Status.Alive, 2, 0⟩],
      v.l = Status.Alive) ∧
    (printLivingLoop [(⟨0, Status.Alive, 1, 0⟩ : Individual), ⟨5, Status.Alive, 2, 0⟩]
      ⟨0, 0, 0, 0, 1, 0⟩).weak = 5 ∧
    (printLivingLoop [(⟨0, Status.Alive, 1, 0⟩ : Individual), ⟨5, Status.Alive, 2, 0⟩]
      ⟨0, 0, 0, 0, 1, 0⟩).wid = 2 ∧
    (∃ v ∈ [(⟨0, Status.Alive, 1, 0⟩ : Individual), ⟨5, Status.Alive, 2, 0⟩],
      v.l = Status.Alive ∧ v.s <
        (printLivingLoop [(⟨0, Status.Alive, 1, 0⟩ : Individual), ⟨5, Status.Alive, 2, 0⟩]
          ⟨0, 0, 0, 0, 1, 0⟩).weak) := by
  with_unfolding_all decide

/-- Claim C5, amended: for every population, (a) whenever some Alive
individual has positive power, `print_living` returns the maximum power
among Alive individuals together with the id of an Alive individual
attaining it, and when no Alive power is positive it returns the
initial tracker values `strong = 0`, `sid = 0`; (b) whenever some Alive
individual has age greater than 1, it returns the maximum age among
Alive individuals together with the id of an Alive holder, and when no
Alive age exceeds 1 it returns the initial values `old = 1`, `oid = 0`;
(c) whenever some Alive individual exists and no Alive individual has
power exactly 0, the internal weak/wid trackers determine the minimum
power among Alive individuals together with the id of an Alive
individual attaining it (the zero-power proviso is forced by the
`weak == 0` re-trigger exhibited in the counterexample). -/
theorem c5_extremes (p : List Individual) :
    ((∃ v ∈ p, v.l = Status.Alive ∧ 0 < v.s) →
      (∀ v ∈ p, v.l = Status.Alive → v.s ≤ (print_living p).1) ∧
      ∃ v ∈ p, v.l = Status.Alive ∧ v.s = (print_living p).1 ∧
        v.id = (print_living p).2.1) ∧
    ((∀ v ∈ p, v.l = Status.Alive → v.s ≤ 0) →
      (print_living p).1 = 0 ∧ (print_living p).2.1 = 0) ∧
    ((∃ v ∈ p, v.l = Status.Alive ∧ 1 < v.a) →
      (∀ v ∈ p, v.l = Status.Alive → v.a ≤ (print_living p).2.2.1) ∧
      ∃ v ∈ p, v.l = Status.Alive ∧ v.a = (print_living p).2.2.1 ∧
        v.id = (print_living p).2.2.2) ∧
    ((∀ v ∈ p, v.l = Status.Alive → v.a ≤ 1) →
      (print_living p).2.2.1 = 1 ∧ (print_living p).2.2.2 = 0) ∧
    ((∃ v ∈ p, v.l = Status.Alive) → (∀ v ∈ p, v.l = Status.Alive → v.s ≠ 0) →
      (∀ v ∈ p, v.l = Status.Alive →
        (printLivingLoop p ⟨0, 0, 0, 0, 1, 0⟩).weak ≤ v.s) ∧
      ∃ v ∈ p, v.l = Status.Alive ∧ v.s = (printLivingLoop p ⟨0, 0, 0, 0, 1, 0⟩).weak ∧
        v.id = (printLivingLoop p ⟨0, 0, 0, 0, 1, 0⟩).wid) := by
  obtain ⟨-, hs2, hs3⟩ := printLivingLoop_strong p ⟨0, 0, 0, 0, 1, 0⟩
  obtain ⟨-, ho2, ho3⟩ := printLivingLoop_old p ⟨0, 0, 0, 0, 1, 0⟩
  refine ⟨?_, ?_, ?_, ?_, ?_⟩
  · rintro ⟨w, hw, hal, hpos⟩
    refine ⟨hs2, ?_⟩
    rcases hs3 with ⟨heq, -⟩ | ⟨-, hex⟩
    · exfalso
      have hle := hs2 w hw hal
      rw [heq] at hle
      exact absurd (lt_of_lt_of_le hpos hle) (lt_irrefl _)
    · exact hex
  · intro hnp
    rcases hs3 with ⟨heq, hsid⟩ | ⟨hlt, w, hw, hal, hs, -⟩
    · exact ⟨heq, hsid⟩
    · exfalso
      have h1 : (0 : ℚ) < (printLivingLoop p ⟨0, 0, 0, 0, 1, 0⟩).strong := hlt
      have h2 := hnp w hw hal
      rw [hs] at h2
      exact absurd (lt_of_lt_of_le h1 h2) (lt_irrefl _)
  · rintro ⟨w, hw, hal, hpos⟩
    refine ⟨ho2, ?_⟩
    rcases ho3 with ⟨heq, -⟩ | ⟨-, hex⟩
    · exfalso
      have hle := ho2 w hw hal
      rw [heq] at hle
      have hle1 : w.a ≤ 1 := hle
      omega
    · exact hex
  · intro hnp
    rcases ho3 with ⟨heq, hoid⟩ | ⟨hlt, w, hw, hal, hs, -⟩
    · exact ⟨heq, hoid⟩
    · exfalso
      have h1 : 1 < (printLivingLoop p ⟨0, 0, 0, 0, 1, 0⟩).old := hlt
      have h2 := hnp w hw hal
      rw [hs] at h2
      omega
  · intro hex hz
    exact printLivingLoop_weak p ⟨0, 0, 0, 0, 1, 0⟩ rfl hz hex

set_option maxRecDepth 8000 in
/-- Witness for C5 (amended): the population with the single Alive
individual of power 2, id 3, age 5 exercises the maximum-power,
maximum-age and minimum-power clauses; the population with the single
Alive individual of power -3, id 4, age 1 exercises both fallback
clauses. -/
theorem c5_extremes_witness :
    ((∀ v ∈ [(⟨2, Status.Alive, 3, 5⟩ : Individual)], v.l = Status.Alive →
        v.s ≤ (print_living [(⟨2, Status.Alive, 3, 5⟩ : Individual)]).1) ∧
      ∃ v ∈ [(⟨2, Status.Alive, 3, 5⟩ : Individual)], v.l = Status.Alive ∧
        v.s = (print_living [(⟨2, Status.Alive, 3, 5⟩ : Individual)]).1 ∧
        v.id = (print_living [(⟨2, Status.Alive, 3, 5⟩ : Individual)]).2.1) ∧
    ((∀ v ∈ [(⟨2, Status.Alive, 3, 5⟩ : Individual)], v.l = Status.Alive →
        v.a ≤ (print_living [(⟨2, Status.Alive, 3, 5⟩ : Individual)]).2.2.1) ∧
      ∃ v ∈ [(⟨2, Status.Alive, 3, 5⟩ : Individual)], v.l = Status.Alive ∧
        v.a = (print_living [(⟨2, Status.Alive, 3, 5⟩ : Individual)]).2.2.1 ∧
        v.id = (print_living [(⟨2, Status.Alive, 3, 5⟩ : Individual)]).2.2.2) ∧
    ((∀ v ∈ [(⟨2, Status.Alive, 3, 5⟩ : Individual)], v.l = Status.Alive →
        (printLivingLoop [(⟨2, Status.Alive, 3, 5⟩ : Individual)]
          ⟨0, 0, 0, 0, 1, 0⟩).weak ≤ v.s) ∧
      ∃ v ∈ [(⟨2, Status.Alive, 3, 5⟩ : Individual)], v.l = Status.Alive ∧
        v.s = (printLivingLoop [(⟨2, Status.Alive, 3, 5⟩ : Individual)]
          ⟨0, 0, 0, 0, 1, 0⟩).weak ∧
        v.id = (printLivingLoop [(⟨2, Status.Alive, 3, 5⟩ : Individual)]
          ⟨0, 0, 0, 0, 1, 0⟩).wid) ∧
    ((print_living [(⟨-3, Status.Alive, 4, 1⟩ : Individual)]).1 = 0 ∧
      (print_living [(⟨-3, Status.Alive, 4, 1⟩ : Individual)]).2.1 = 0) ∧
    ((print_living [(⟨-3, Status.Alive, 4, 1⟩ : Individual)]).2.2.1 = 1 ∧
      (print_living [(⟨-3, Status.Alive, 4, 1⟩ : Individual)]).2.2.2 = 0) :=
  ⟨(c5_extremes [(⟨2, Status.Alive, 3, 5⟩ : Individual)]).1 (by with_unfolding_all decide),
   (c5_extremes [(⟨2, Status.Alive, 3, 5⟩ : Individual)]).2.2.1 (by with_unfolding_all decide),
   (c5_extremes [(⟨2, Status.Alive, 3, 5⟩ : Individual)]).2.2.2.2
     (by with_unfolding_all decide) (by with_unfolding_all decide),
   (c5_extremes [(⟨-3, Status.Alive, 4, 1⟩ : Individual)]).2.1 (by with_unfolding_all decide),
   (c5_extremes [(⟨-3, Status.Alive, 4, 1⟩ : Individual)]).2.2.2.1
     (by with_unfolding_all decide)⟩
/-- Claim C6: the validation accepts any parsed pair with
`maxpop >= 10` and `maxgen >= 51` — in particular it accepts
`population_size = 100001`, which exceeds the documented 100000 bound
the claim (and the program's own error message) requires to be
rejected; the lower bounds and the parse failure are enforced as the
claim states. -/
theorem c6_validation_eval :
    mainCheck (some (100001, 51)) = InputResult.accepted 100001 51 ∧
    ¬ ((100001 : ℤ) ≤ 100000) ∧
    mainCheck (some (9, 51)) = InputResult.rejected ∧
    mainCheck (some (10, 50)) = InputResult.rejected ∧
    mainCheck none = InputResult.rejected := by
  refine ⟨by norm_num [mainCheck], by norm_num, by norm_num [mainCheck],
    by norm_num [mainCheck], rfl⟩

end Evolve
